import Mathlib

/-!
# Verification of the person-priority scoring and ranking engine

Shallow embedding of `src/lib/personSort.ts` (data model from `src/types.ts`).

Modelling choices:
* JavaScript `Date` values are modelled as `Int` timestamps in milliseconds
  since the epoch (`Time`).  `date-fns`'s `differenceInDays` is whole-day
  truncation of the millisecond difference (truncated division, toward zero),
  and `isPast d` is `d < now` where the implicit wall clock `new Date()` /
  `Date.now()` is made an explicit `now : Time` parameter, as the spec requires.
* JavaScript numbers are modelled as exact rationals (`ℚ`); the literal `0.2`
  is the rational `1/5`.
* `Math.log2` is transcendental, so it is modelled as an explicit parameter
  `log2 : ℕ → ℚ` (it is only ever applied to `personTasks.length + 1`, a
  natural number).  Theorems that need facts about the real `log2` take them
  as hypotheses that the real base-2 logarithm satisfies on `[2, ∞)`:
  `log2 2 = 1`, monotonicity, nonnegativity, and `1 ≤ log2 m` for `2 ≤ m`.
* `String.prototype.localeCompare` is modelled as the three-valued comparison
  induced by the linear order on `String`.
* `Array.prototype.sort` (required stable by the JS spec) is modelled as
  `List.mergeSort` with the boolean relation `comparator a b ≤ 0`.
-/

namespace PersonSort

/-- Milliseconds since the Unix epoch, the value of `Date.prototype.getTime`. -/
abbrev Time := Int

/-- Milliseconds in one day. -/
def msPerDay : Int := 86400000

/-- `date-fns` `differenceInDays(laterDate, earlierDate)`: the signed number of
whole days between the two timestamps, truncated toward zero. -/
def differenceInDays (laterDate earlierDate : Time) : Int :=
  Int.tdiv (laterDate - earlierDate) msPerDay

/-- `date-fns` `isPast(d)` relative to an explicit `now`: `d` is strictly
before `now`. -/
def isPast (d now : Time) : Bool := d < now

/-- `Task.status` from `src/types.ts`: `'pending' | 'in_progress' | 'completed'`. -/
inductive Status where
  | pending
  | in_progress
  | completed
deriving DecidableEq, Repr

/-- `Task.priority` from `src/types.ts`: `'low' | 'medium' | 'high'`. -/
inductive Priority where
  | low
  | medium
  | high
deriving DecidableEq, Repr

/-- `Person` from `src/types.ts` (the optional `avatar_url` is modelled as a
plain string; the engine never reads it). -/
structure Person where
  id : String
  name : String
  role : String
  department : String
  email : String
  avatar_url : String
  created_at : String
deriving DecidableEq, Repr

/-- `Task` from `src/types.ts` (the optional `description` is modelled as a
plain string; the engine never reads it). -/
structure Task where
  id : String
  title : String
  description : String
  status : Status
  priority : Priority
  due_date : Time
  assigned_person_ids : List String
  created_at : String
  updated_at : String
deriving DecidableEq, Repr

/-- The filter predicate used both by `calculatePersonScore` and by
`getOpenTasks` inside `sortPersons`:
`task.assigned_person_ids.includes(person.id) && task.status !== 'completed'`. -/
def isOpenFor (person : Person) (task : Task) : Bool :=
  task.assigned_person_ids.contains person.id && task.status != Status.completed

/-- `tasks.filter(task => task.assigned_person_ids.includes(person.id) &&
task.status !== 'completed')` — the `personTasks` / `getOpenTasks` list. -/
def personOpenTasks (person : Person) (tasks : List Task) : List Task :=
  tasks.filter (isOpenFor person)

/-- `Math.abs(differenceInDays(new Date(task.due_date), today))`. -/
def daysOverdue (now : Time) (task : Task) : ℕ :=
  (differenceInDays task.due_date now).natAbs

/-- The overdue block of `calculatePersonScore`: if there is any overdue task,
`1000` plus `100 * Math.min(daysOverdue, 10)` for each overdue task, else
nothing. -/
def overdueScore (now : Time) (personTasks : List Task) : ℚ :=
  let overdueTasks := personTasks.filter (fun task => isPast task.due_date now)
  if overdueTasks.length > 0 then
    1000 + (overdueTasks.map (fun task => (100 : ℚ) * (min (daysOverdue now task) 10 : ℕ))).sum
  else 0

/-- The high-priority block of `calculatePersonScore`:
`500 * highPriorityTasks.length` when that list is non-empty. -/
def highPriorityScore (personTasks : List Task) : ℚ :=
  let highPriorityTasks := personTasks.filter (fun task => task.priority == Priority.high)
  if highPriorityTasks.length > 0 then
    500 * (highPriorityTasks.length : ℚ)
  else 0

/-- The `priorityWeight` table: `{ high: 50, medium: 20, low: 5 }`. -/
def priorityWeight : Priority → ℚ
  | Priority.high => 50
  | Priority.medium => 20
  | Priority.low => 5

/-- The `dateWeight` ladder: `5` if `daysUntilDue <= 1`, `3` if `<= 3`,
`2` if `<= 7`, else `1`. -/
def dateWeight (daysUntilDue : Int) : ℚ :=
  if daysUntilDue ≤ 1 then 5
  else if daysUntilDue ≤ 3 then 3
  else if daysUntilDue ≤ 7 then 2
  else 1

/-- The "remaining tasks" loop of `calculatePersonScore`: overdue tasks are
skipped, each other task contributes `priorityWeight * dateWeight`. -/
def dueSoonScore (now : Time) (personTasks : List Task) : ℚ :=
  (personTasks.map (fun task =>
    if isPast task.due_date now then 0
    else priorityWeight task.priority * dateWeight (differenceInDays task.due_date now))).sum

/-- The diminishing-returns multiplier
`1 + Math.log2(personTasks.length + 1) * 0.2`. -/
def countMultiplier (log2 : ℕ → ℚ) (n : ℕ) : ℚ :=
  1 + log2 (n + 1) * (1 / 5)

/-- `calculatePersonScore(person, tasks)` from `src/lib/personSort.ts`, with
the implicit `today = new Date()` made the explicit parameter `now` and
`Math.log2` the explicit parameter `log2`. -/
def calculatePersonScore (log2 : ℕ → ℚ) (person : Person) (tasks : List Task)
    (now : Time) : ℚ :=
  let personTasks := personOpenTasks person tasks
  if personTasks.length = 0 then 0
  else
    (overdueScore now personTasks + highPriorityScore personTasks +
      dueSoonScore now personTasks) * countMultiplier log2 personTasks.length

/-- The spec's reference score formula (§4.1 of the spec), written from the
spec's words: filter to the `open` set; if empty return 0; otherwise
partition into `overdue` (due strictly before `now`) and `notOverdue`;
base = (if some task is overdue: `1000 + Σ 100 * min(daysOverdue, 10)`)
`+ 500 * count(highPriorityOpen)`
`+ Σ_{notOverdue} priorityWeight * dateWeight(daysUntilDue)`;
result = base `* (1 + log2(count(open) + 1) * 0.2)`. -/
def specComputeScore (log2 : ℕ → ℚ) (person : Person) (allTasks : List Task)
    (now : Time) : ℚ :=
  let openTasks := allTasks.filter (fun task =>
    task.assigned_person_ids.contains person.id && task.status != Status.completed)
  if openTasks = [] then 0
  else
    let overdue := openTasks.filter (fun task => decide (task.due_date < now))
    let notOverdue := openTasks.filter (fun task => decide (¬ task.due_date < now))
    let base : ℚ :=
      (if overdue = [] then 0 else
        1000 + (overdue.map (fun task =>
          (100 : ℚ) * (min (differenceInDays task.due_date now).natAbs 10 : ℕ))).sum)
      + 500 * ((openTasks.filter (fun task => task.priority == Priority.high)).length : ℚ)
      + (notOverdue.map (fun task =>
          priorityWeight task.priority * dateWeight (differenceInDays task.due_date now))).sum
    base * (1 + log2 (openTasks.length + 1) * (1 / 5))

/-- `a.localeCompare(b)`: negative when `a` sorts before `b`, zero when they
compare equal, positive when `a` sorts after `b`.  Modelled with the linear
order on `String`. -/
def compareStrings (a b : String) : ℚ :=
  if a < b then -1 else if b < a then 1 else 0

/-- `getHighestPriority` inside `sortPersons`:
`Math.max(...tasks.map(t => priorities[t.priority]), 0)` with
`priorities = { high: 2, medium: 1, low: 0 }`. -/
def priorityValue : Priority → Int
  | Priority.high => 2
  | Priority.medium => 1
  | Priority.low => 0

def getHighestPriority (tasks : List Task) : Int :=
  (tasks.map (fun t => priorityValue t.priority)).foldl max 0

/-- `new Date(9999, 11, 31).getTime()` — the sentinel far-future timestamp
(Dec 31 of year 9999, taken at UTC midnight). -/
def farFutureTime : Time := 253402214400000

/-- `getEarliestDueDate` inside `sortPersons`: the sentinel when the list is
empty, otherwise `Math.min` over the tasks' due-date timestamps. -/
def getEarliestDueDate (tasks : List Task) : Time :=
  match tasks.map (fun t => t.due_date) with
  | [] => farFutureTime
  | d :: ds => ds.foldl min d

/-- The comparator passed to `[...persons].sort` in `sortPersons`, one branch
per `case` of the `switch (sortBy)`; the `default` branch returns `0`.
The strategy identifier is a plain string, as it is at run time in the
compiled JavaScript. -/
def personCompare (log2 : ℕ → ℚ) (tasks : List Task) (now : Time)
    (sortBy : String) (a b : Person) : ℚ :=
  match sortBy with
  | "smart" =>
      calculatePersonScore log2 b tasks now - calculatePersonScore log2 a tasks now
  | "taskCount" =>
      ((personOpenTasks b tasks).length : ℚ) - ((personOpenTasks a tasks).length : ℚ)
  | "urgency" =>
      ((getEarliestDueDate (personOpenTasks a tasks) : ℚ) -
        (getEarliestDueDate (personOpenTasks b tasks) : ℚ))
  | "priority" =>
      let aPriority := getHighestPriority (personOpenTasks a tasks)
      let bPriority := getHighestPriority (personOpenTasks b tasks)
      if bPriority ≠ aPriority then (bPriority : ℚ) - (aPriority : ℚ)
      else ((getEarliestDueDate (personOpenTasks a tasks) : ℚ) -
        (getEarliestDueDate (personOpenTasks b tasks) : ℚ))
  | "name" => compareStrings a.name b.name
  | "role" => compareStrings a.role b.role
  | _ => 0

/-- The boolean "sorts no later than" relation induced by the comparator,
used to model the stable `Array.prototype.sort`. -/
def personLe (log2 : ℕ → ℚ) (tasks : List Task) (now : Time) (sortBy : String)
    (a b : Person) : Bool :=
  decide (personCompare log2 tasks now sortBy a b ≤ 0)

/-- `sortPersons(persons, tasks, sortBy)` from `src/lib/personSort.ts`:
`[...persons].sort(comparator)`, modelled as a stable merge sort by the
comparator-induced relation.  (The source also precomputes a
`personScores` map keyed by `person.id`; since `calculatePersonScore` reads
the person only through `person.id`, the map lookup agrees with calling the
score function directly, which is how the `smart` branch is modelled.) -/
def sortPersons (log2 : ℕ → ℚ) (persons : List Person) (tasks : List Task)
    (sortBy : String) (now : Time) : List Person :=
  persons.mergeSort (personLe log2 tasks now sortBy)

/-! ### Concrete data for scenarios and witnesses

`now` is taken to be timestamp `0`; `personA` has one open high-priority task
due exactly 3 whole days in the past, `personB` one open low-priority task due
exactly 5 whole days in the future — the spec's §8 scenario. -/

def personA : Person :=
  ⟨"A", "Alice", "engineer", "dev", "alice@example.com", "", "2024-01-01"⟩

def personB : Person :=
  ⟨"B", "Bob", "designer", "design", "bob@example.com", "", "2024-01-01"⟩

def taskA : Task :=
  ⟨"t1", "overdue high task", "", Status.pending, Priority.high,
    -3 * msPerDay, ["A"], "", ""⟩

def taskB : Task :=
  ⟨"t2", "future low task", "", Status.pending, Priority.low,
    5 * msPerDay, ["B"], "", ""⟩

def demoTasks : List Task := [taskA, taskB]

/-- A person distinct from `personA` but with the same display name, used to
exercise stability on comparator ties. -/
def personC : Person :=
  ⟨"C", "Alice", "manager", "ops", "alice2@example.com", "", "2024-01-01"⟩

/-- `taskA` with priority and due date altered (same status and assignees). -/
def taskA2 : Task :=
  ⟨"t1", "overdue high task", "", Status.pending, Priority.low,
    7 * msPerDay, ["A"], "", ""⟩

/-- `taskB` with priority and due date altered (same status and assignees). -/
def taskB2 : Task :=
  ⟨"t2", "future low task", "", Status.pending, Priority.high,
    -9 * msPerDay, ["B"], "", ""⟩

def demoTasks2 : List Task := [taskA2, taskB2]

/-! ### Basic facts about the score components -/

theorem priorityWeight_ge_five (p : Priority) : 5 ≤ priorityWeight p := by
  cases p <;> norm_num [priorityWeight]

theorem dateWeight_ge_one (d : Int) : 1 ≤ dateWeight d := by
  rw [dateWeight]
  split_ifs <;> norm_num

theorem overdueScore_nonneg (now : Time) (pts : List Task) :
    0 ≤ overdueScore now pts := by
  rw [overdueScore]
  split_ifs with h
  · have hsum : 0 ≤ ((pts.filter (fun task => isPast task.due_date now)).map
        (fun task => (100 : ℚ) * (min (daysOverdue now task) 10 : ℕ))).sum := by
      apply List.sum_nonneg
      intro x hx
      obtain ⟨t, _, rfl⟩ := List.mem_map.mp hx
      positivity
    linarith
  · exact le_refl 0

theorem highPriorityScore_eq (pts : List Task) :
    highPriorityScore pts =
      500 * ((pts.filter (fun task => task.priority == Priority.high)).length : ℚ) := by
  rw [highPriorityScore]
  split_ifs with h
  · rfl
  · simp only [not_lt, Nat.le_zero] at h
    rw [h]
    norm_num

theorem highPriorityScore_nonneg (pts : List Task) : 0 ≤ highPriorityScore pts := by
  rw [highPriorityScore_eq]
  positivity

theorem dueSoonScore_nonneg (now : Time) (pts : List Task) :
    0 ≤ dueSoonScore now pts := by
  rw [dueSoonScore]
  apply List.sum_nonneg
  intro x hx
  obtain ⟨t, _, rfl⟩ := List.mem_map.mp hx
  split_ifs
  · exact le_refl 0
  · have h1 := priorityWeight_ge_five t.priority
    have h2 := dateWeight_ge_one (differenceInDays t.due_date now)
    nlinarith

theorem baseScore_nonneg (now : Time) (pts : List Task) :
    0 ≤ overdueScore now pts + highPriorityScore pts + dueSoonScore now pts := by
  have := overdueScore_nonneg now pts
  have := highPriorityScore_nonneg pts
  have := dueSoonScore_nonneg now pts
  linarith

theorem countMultiplier_nonneg (log2 : ℕ → ℚ) (n : ℕ)
    (hnn : ∀ m, 2 ≤ m → 0 ≤ log2 m) (hn : 1 ≤ n) :
    0 ≤ countMultiplier log2 n := by
  rw [countMultiplier]
  have : 0 ≤ log2 (n + 1) := hnn (n + 1) (by omega)
  linarith

theorem calculatePersonScore_nonneg (log2 : ℕ → ℚ) (person : Person)
    (tasks : List Task) (now : Time)
    (hnn : ∀ m, 2 ≤ m → 0 ≤ log2 m) :
    0 ≤ calculatePersonScore log2 person tasks now := by
  simp only [calculatePersonScore]
  split_ifs with h
  · exact le_refl 0
  · exact mul_nonneg (baseScore_nonneg now (personOpenTasks person tasks))
      (countMultiplier_nonneg log2 (personOpenTasks person tasks).length hnn (by omega))

theorem dueSoonScore_eq_filter (now : Time) : ∀ pts : List Task,
    dueSoonScore now pts =
      ((pts.filter fun task => !(isPast task.due_date now)).map
        (fun task => priorityWeight task.priority *
          dateWeight (differenceInDays task.due_date now))).sum
  | [] => rfl
  | t :: rest => by
    have ih := dueSoonScore_eq_filter now rest
    rw [dueSoonScore, List.map_cons, List.sum_cons, List.filter_cons]
    rw [dueSoonScore] at ih
    cases h : isPast t.due_date now
    · rw [ih]
      simp [h]
    · rw [ih]
      simp [h]

/-- **C5.** If no task in the list is both assigned to the person and
non-completed, `calculatePersonScore` returns exactly 0. -/
theorem calculatePersonScore_eq_zero_of_no_open
    (log2 : ℕ → ℚ) (person : Person) (tasks : List Task) (now : Time)
    (h : ∀ t ∈ tasks, t.assigned_person_ids.contains person.id = true →
      t.status = Status.completed) :
    calculatePersonScore log2 person tasks now = 0 := by
  have hempty : personOpenTasks person tasks = [] := by
    rw [personOpenTasks, List.filter_eq_nil_iff]
    intro t ht
    simp only [isOpenFor, Bool.and_eq_true, bne_iff_ne, ne_eq, not_and, not_not]
    exact h t ht
  simp [calculatePersonScore, hempty]

/-- Witness for C5 at a concrete input: `personB` is assigned none of the
tasks in `[taskA]`, and the score evaluates to `0`. -/
theorem calculatePersonScore_eq_zero_of_no_open_witness :
    (∀ t ∈ [taskA], t.assigned_person_ids.contains personB.id = true →
      t.status = Status.completed) ∧
    calculatePersonScore (fun _ => 1) personB [taskA] 0 = 0 :=
  ⟨by decide, calculatePersonScore_eq_zero_of_no_open (fun _ => 1) personB [taskA] 0 (by decide)⟩

/-- **C1.** The spec's reference formula (§4.1) and the source's
`calculatePersonScore` agree on every input, for every model of `Math.log2`. -/
theorem specComputeScore_eq_calculatePersonScore (log2 : ℕ → ℚ) (person : Person)
    (tasks : List Task) (now : Time) :
    specComputeScore log2 person tasks now = calculatePersonScore log2 person tasks now := by
  simp only [specComputeScore, calculatePersonScore]
  have hopen : (tasks.filter fun task =>
      task.assigned_person_ids.contains person.id && task.status != Status.completed) =
      personOpenTasks person tasks := rfl
  rw [hopen]
  set pts := personOpenTasks person tasks with hpts
  rcases eq_or_ne pts [] with he | he
  · have hlen : pts.length = 0 := by rw [he]; rfl
    rw [if_pos he, if_pos hlen]
  · have hlen : ¬ pts.length = 0 := by
      simpa [List.length_eq_zero] using he
    rw [if_neg he, if_neg hlen]
    rw [countMultiplier]
    congr 1
    have hod : (pts.filter fun task => decide (task.due_date < now)) =
        pts.filter (fun task => isPast task.due_date now) := rfl
    have hnod : (pts.filter fun task => decide (¬ task.due_date < now)) =
        pts.filter (fun task => !(isPast task.due_date now)) := by
      simp only [decide_not, isPast]
    rw [hod, hnod, highPriorityScore_eq, dueSoonScore_eq_filter]
    congr 1
    rw [overdueScore]
    rcases eq_or_ne (pts.filter fun task => isPast task.due_date now) [] with ho | ho
    · rw [if_pos ho, ho]
      norm_num
    · rw [if_neg ho, if_pos (by simpa [List.length_pos] using ho)]
      rfl

/-! ### The §8 scenario: person A (one overdue high task), person B (one
low task due in 5 days), evaluated at `now = 0`. -/

theorem scoreA_demo (log2 : ℕ → ℚ) (h : log2 2 = 1) :
    calculatePersonScore log2 personA demoTasks 0 = 2160 := by
  have h1 : personOpenTasks personA demoTasks = [taskA] := by decide
  have h2 : [taskA].filter (fun task => isPast task.due_date 0) = [taskA] := by decide
  have h3 : [taskA].filter (fun task => task.priority == Priority.high) = [taskA] := by decide
  have h4 : daysOverdue 0 taskA = 3 := by decide
  have h5 : isPast taskA.due_date 0 = true := by decide
  rw [calculatePersonScore, h1, overdueScore, highPriorityScore, dueSoonScore, countMultiplier]
  simp [h2, h3, h4, h5, h]
  norm_num

theorem scoreB_demo (log2 : ℕ → ℚ) (h : log2 2 = 1) :
    calculatePersonScore log2 personB demoTasks 0 = 12 := by
  have h1 : personOpenTasks personB demoTasks = [taskB] := by decide
  have h2 : [taskB].filter (fun task => isPast task.due_date 0) = [] := by decide
  have h3 : [taskB].filter (fun task => task.priority == Priority.high) = [] := by decide
  have h5 : isPast taskB.due_date 0 = false := by decide
  have h6 : differenceInDays taskB.due_date 0 = 5 := by decide
  have h7 : taskB.priority = Priority.low := rfl
  rw [calculatePersonScore, h1, overdueScore, highPriorityScore, dueSoonScore, countMultiplier]
  simp [h2, h3, h5, h6, h7, h, priorityWeight, dateWeight]
  norm_num

/-- **C3 (counterexample).** In the spec's §8 scenario, with a model of
`log2` satisfying `log2 2 = 1` (as the real base-2 logarithm does), person
B's score is `12`, not the claimed `6`: the task due 5 whole days in the
future falls in the `daysUntilDue <= 7` bracket, so its `dateWeight` is `2`,
giving `5 * 2 = 10` before the `1.2` multiplier. -/
theorem scenario_personB_score_twelve_not_six :
    calculatePersonScore (fun _ => 1) personB demoTasks 0 = 12 ∧
    calculatePersonScore (fun _ => 1) personB demoTasks 0 ≠ 6 := by
  have h := scoreB_demo (fun _ => 1) rfl
  refine ⟨h, ?_⟩
  rw [h]
  norm_num

/-- **C3 (amended).** With `log2 2 = 1`: person A's score is `2160`
(`(1000 + 100*3 + 500) * 1.2`), person B's score is `12` (`5 * 2 * 1.2`,
`dateWeight 2` because `daysUntilDue = 5 ≤ 7`), and the `smart` ranking
places A before B. -/
theorem smart_scenario_amended (log2 : ℕ → ℚ) (h : log2 2 = 1) :
    calculatePersonScore log2 personA demoTasks 0 = 2160 ∧
    calculatePersonScore log2 personB demoTasks 0 = 12 ∧
    sortPersons log2 [personB, personA] demoTasks "smart" 0 = [personA, personB] := by
  have hA := scoreA_demo log2 h
  have hB := scoreB_demo log2 h
  refine ⟨hA, hB, ?_⟩
  have hle : personLe log2 demoTasks 0 "smart" personB personA = false := by
    rw [personLe, personCompare, hA, hB]
    norm_num
  rw [sortPersons, List.mergeSort]
  simp [List.splitInTwo, List.merge, hle]

/-- Witness for the amended C3, instantiating `log2` with a function that
agrees with the real base-2 logarithm at the only argument used. -/
theorem smart_scenario_amended_witness :
    ((fun _ : ℕ => (1 : ℚ)) 2 = 1) ∧
    (calculatePersonScore (fun _ => 1) personA demoTasks 0 = 2160 ∧
      calculatePersonScore (fun _ => 1) personB demoTasks 0 = 12 ∧
      sortPersons (fun _ => 1) [personB, personA] demoTasks "smart" 0 = [personA, personB]) :=
  ⟨rfl, smart_scenario_amended (fun _ => 1) rfl⟩

/-- **C2.** At the failing input — strategy string `"bogus"`, two people —
`sortPersons` silently returns a ranking equal to the input order: the
`default` branch of the `switch` makes the comparator constantly `0`, and no
error of any kind is raised (the function's type has no error channel).
The spec instead requires an explicit "unsupported strategy" failure. -/
theorem sortPersons_bogus_returns_input_order :
    sortPersons (fun _ => 1) [personA, personB] demoTasks "bogus" 0 = [personA, personB] := by
  rw [sortPersons]
  apply List.mergeSort_of_sorted
  refine List.Pairwise.cons ?_ (List.pairwise_singleton _ _)
  intro b hb
  have hb' : b = personB := by simpa using hb
  subst hb'
  have h0 : personCompare (fun _ => (1 : ℚ)) demoTasks 0 "bogus" personA personB = 0 := rfl
  rw [personLe, h0]
  norm_num

/-! ### Monotonicity in an added overdue task -/

theorem overdueScore_le_append (now : Time) (pts : List Task) (t : Task)
    (hpast : isPast t.due_date now = true) :
    overdueScore now pts ≤ overdueScore now (pts ++ [t]) := by
  rw [overdueScore, overdueScore, List.filter_append]
  have hft : [t].filter (fun task => isPast task.due_date now) = [t] := by
    simp [hpast]
  rw [hft]
  have hterm : (0 : ℚ) ≤ 100 * (min (daysOverdue now t) 10 : ℕ) := by positivity
  rcases eq_or_ne (pts.filter fun task => isPast task.due_date now) [] with h | h
  · rw [h]
    simp only [List.nil_append, List.length_nil, List.length_singleton, gt_iff_lt,
      Nat.lt_irrefl, if_false, Nat.zero_lt_one, if_true, List.map_cons, List.map_nil,
      List.sum_cons, List.sum_nil]
    linarith
  · have hlen : 0 < (pts.filter fun task => isPast task.due_date now).length :=
      List.length_pos.mpr h
    have hlen2 : 0 < ((pts.filter fun task => isPast task.due_date now) ++ [t]).length := by
      simp [List.length_append]
    rw [if_pos hlen, if_pos hlen2, List.map_append, List.sum_append]
    simp only [List.map_cons, List.map_nil, List.sum_cons, List.sum_nil]
    linarith

theorem highPriorityScore_le_append (pts : List Task) (t : Task) :
    highPriorityScore pts ≤ highPriorityScore (pts ++ [t]) := by
  rw [highPriorityScore_eq, highPriorityScore_eq, List.filter_append, List.length_append]
  have h : (0 : ℚ) ≤ (([t].filter fun task => task.priority == Priority.high).length : ℚ) := by
    positivity
  push_cast
  linarith

theorem dueSoonScore_append_overdue (now : Time) (pts : List Task) (t : Task)
    (hpast : isPast t.due_date now = true) :
    dueSoonScore now (pts ++ [t]) = dueSoonScore now pts := by
  rw [dueSoonScore, dueSoonScore, List.map_append, List.sum_append]
  simp [hpast]

theorem countMultiplier_le_succ (log2 : ℕ → ℚ) (n : ℕ) (hmono : Monotone log2) :
    countMultiplier log2 n ≤ countMultiplier log2 (n + 1) := by
  rw [countMultiplier, countMultiplier]
  have := hmono (show n + 1 ≤ n + 1 + 1 by omega)
  linarith

/-- **C4.** Appending one more task that is assigned to the person, not
completed, and overdue never decreases the person's score, for any model of
`log2` that is monotone and nonnegative on `[2, ∞)` (as the real base-2
logarithm is). -/
theorem calculatePersonScore_mono_add_overdue (log2 : ℕ → ℚ) (person : Person)
    (tasks : List Task) (now : Time) (t : Task)
    (hmono : Monotone log2) (hnn : ∀ m, 2 ≤ m → 0 ≤ log2 m)
    (hassigned : t.assigned_person_ids.contains person.id = true)
    (hnotdone : t.status ≠ Status.completed)
    (hpast : isPast t.due_date now = true) :
    calculatePersonScore log2 person tasks now ≤
      calculatePersonScore log2 person (tasks ++ [t]) now := by
  have hopen : isOpenFor person t = true := by
    rw [isOpenFor, Bool.and_eq_true, hassigned]
    simpa using hnotdone
  have happ : personOpenTasks person (tasks ++ [t]) = personOpenTasks person tasks ++ [t] := by
    rw [personOpenTasks, personOpenTasks, List.filter_append]
    simp [hopen]
  rw [calculatePersonScore, calculatePersonScore, happ]
  set pts := personOpenTasks person tasks with hpts
  have hlen' : ¬ ((pts ++ [t]).length = 0) := by simp
  rw [if_neg hlen']
  rcases eq_or_ne pts.length 0 with hz | hz
  · rw [if_pos hz]
    apply mul_nonneg (baseScore_nonneg now (pts ++ [t]))
    apply countMultiplier_nonneg log2 _ hnn
    simp
  · rw [if_neg hz]
    have h1 := overdueScore_le_append now pts t hpast
    have h2 := highPriorityScore_le_append pts t
    have h3 := dueSoonScore_append_overdue now pts t hpast
    have hmult := countMultiplier_le_succ log2 pts.length hmono
    have hmult0 : 0 ≤ countMultiplier log2 pts.length :=
      countMultiplier_nonneg log2 _ hnn (by omega)
    have hb0 := baseScore_nonneg now pts
    rw [h3, List.length_append, List.length_singleton]
    apply mul_le_mul _ hmult hmult0 _
    · linarith
    · linarith

/-- Witness for C4 at a concrete input: adding the overdue `taskA` to an
empty task list does not decrease `personA`'s score. -/
theorem calculatePersonScore_mono_add_overdue_witness :
    Monotone (fun n : ℕ => (n : ℚ)) ∧ (∀ m : ℕ, 2 ≤ m → (0 : ℚ) ≤ m) ∧
    taskA.assigned_person_ids.contains personA.id = true ∧
    taskA.status ≠ Status.completed ∧ isPast taskA.due_date 0 = true ∧
    calculatePersonScore (fun n => (n : ℚ)) personA [] 0 ≤
      calculatePersonScore (fun n => (n : ℚ)) personA ([] ++ [taskA]) 0 :=
  ⟨fun _ _ hab => Nat.cast_le.mpr hab, fun _ _ => Nat.cast_nonneg _,
    by decide, by decide, by decide,
    calculatePersonScore_mono_add_overdue (fun n => (n : ℚ)) personA [] 0 taskA
      (fun _ _ hab => Nat.cast_le.mpr hab) (fun _ _ => Nat.cast_nonneg _)
      (by decide) (by decide) (by decide)⟩

/-! ### A strictly positive lower bound when open tasks exist -/

theorem overdueScore_ge_of_some (now : Time) (pts : List Task)
    (ho : (pts.filter fun task => isPast task.due_date now) ≠ []) :
    1000 ≤ overdueScore now pts := by
  rw [overdueScore, if_pos (List.length_pos.mpr ho)]
  have hsum : 0 ≤ ((pts.filter (fun task => isPast task.due_date now)).map
      (fun task => (100 : ℚ) * (min (daysOverdue now task) 10 : ℕ))).sum := by
    apply List.sum_nonneg
    intro x hx
    obtain ⟨t, _, rfl⟩ := List.mem_map.mp hx
    positivity
  linarith

theorem overdueScore_eq_zero_of_none (now : Time) (pts : List Task)
    (ho : (pts.filter fun task => isPast task.due_date now) = []) :
    overdueScore now pts = 0 := by
  rw [overdueScore, ho]
  simp

theorem score_ge_six_aux (log2 : ℕ → ℚ) (person : Person)
    (tasks : List Task) (now : Time)
    (hge : ∀ m, 2 ≤ m → 1 ≤ log2 m)
    (h : personOpenTasks person tasks ≠ []) :
    6 ≤ calculatePersonScore log2 person tasks now := by
  rw [calculatePersonScore]
  have hlen : ¬ (personOpenTasks person tasks).length = 0 := by
    simpa [List.length_eq_zero] using h
  rw [if_neg hlen]
  set pts := personOpenTasks person tasks with hpts
  have hmult : 6 / 5 ≤ countMultiplier log2 pts.length := by
    rw [countMultiplier]
    have := hge (pts.length + 1) (by omega)
    linarith
  have hH := highPriorityScore_nonneg pts
  have hbase : 5 ≤ overdueScore now pts + highPriorityScore pts + dueSoonScore now pts := by
    rcases eq_or_ne (pts.filter fun task => isPast task.due_date now) [] with ho | ho
    · have hO := overdueScore_eq_zero_of_none now pts ho
      have hD : 5 ≤ dueSoonScore now pts := by
        obtain ⟨t0, rest, hcons⟩ : ∃ t0 rest, pts = t0 :: rest := by
          rcases hx : pts with _ | ⟨t0, rest⟩
          · exact absurd hx h
          · exact ⟨t0, rest, rfl⟩
        have ht0 : isPast t0.due_date now = false := by
          have hmem : t0 ∈ pts := by rw [hcons]; exact List.mem_cons_self t0 rest
          have := List.filter_eq_nil_iff.mp ho t0 hmem
          simpa using this
        rw [hcons, dueSoonScore, List.map_cons, List.sum_cons, ht0]
        have hrest : 0 ≤ (rest.map (fun task =>
            if isPast task.due_date now then 0
            else priorityWeight task.priority *
              dateWeight (differenceInDays task.due_date now))).sum :=
          dueSoonScore_nonneg now rest
        have hpw := priorityWeight_ge_five t0.priority
        have hdw := dateWeight_ge_one (differenceInDays t0.due_date now)
        simp only [Bool.false_eq_true, if_false]
        nlinarith
      linarith
    · have hO := overdueScore_ge_of_some now pts ho
      have hD := dueSoonScore_nonneg now pts
      linarith
  calc (6 : ℚ) = 5 * (6 / 5) := by norm_num
    _ ≤ (overdueScore now pts + highPriorityScore pts + dueSoonScore now pts) *
          countMultiplier log2 pts.length :=
        mul_le_mul hbase hmult (by norm_num) (by linarith)

/-- **C10.** For any model of `log2` with `1 ≤ log2 m` for `2 ≤ m` (as the
real base-2 logarithm has): if the person has at least one open assigned
task the score is at least `6` (the base sum is at least `5`, the count
multiplier at least `6/5`), and consequently the score is `0` exactly when
the person has no open tasks. -/
theorem calculatePersonScore_ge_six_of_open (log2 : ℕ → ℚ) (person : Person)
    (tasks : List Task) (now : Time)
    (hge : ∀ m, 2 ≤ m → 1 ≤ log2 m) :
    (personOpenTasks person tasks ≠ [] →
      6 ≤ calculatePersonScore log2 person tasks now) ∧
    (calculatePersonScore log2 person tasks now = 0 ↔
      personOpenTasks person tasks = []) := by
  refine ⟨score_ge_six_aux log2 person tasks now hge, ?_, ?_⟩
  · intro hzero
    by_contra hne
    have := score_ge_six_aux log2 person tasks now hge hne
    rw [hzero] at this
    norm_num at this
  · intro hempty
    have hlen : (personOpenTasks person tasks).length = 0 := by
      rw [hempty]
      rfl
    simp [calculatePersonScore, hlen]

/-- Witness for C10 at a concrete input: `personA` has the open task `taskA`
in `demoTasks`, rendering the score at least `6` and nonzero. -/
theorem calculatePersonScore_ge_six_of_open_witness :
    (∀ m : ℕ, 2 ≤ m → (1 : ℚ) ≤ (fun _ : ℕ => (1 : ℚ)) m) ∧
    ((personOpenTasks personA demoTasks ≠ [] →
      6 ≤ calculatePersonScore (fun _ => 1) personA demoTasks 0) ∧
    (calculatePersonScore (fun _ => 1) personA demoTasks 0 = 0 ↔
      personOpenTasks personA demoTasks = [])) :=
  ⟨fun _ _ => le_refl 1,
    calculatePersonScore_ge_six_of_open (fun _ => 1) personA demoTasks 0
      (fun _ _ => le_refl 1)⟩

/-! ### The comparator, strategy by strategy -/

theorem personCompare_smart (log2 : ℕ → ℚ) (tasks : List Task) (now : Time) (a b : Person) :
    personCompare log2 tasks now "smart" a b =
      calculatePersonScore log2 b tasks now - calculatePersonScore log2 a tasks now := rfl

theorem personCompare_taskCount (log2 : ℕ → ℚ) (tasks : List Task) (now : Time) (a b : Person) :
    personCompare log2 tasks now "taskCount" a b =
      ((personOpenTasks b tasks).length : ℚ) - ((personOpenTasks a tasks).length : ℚ) := rfl

theorem personCompare_urgency (log2 : ℕ → ℚ) (tasks : List Task) (now : Time) (a b : Person) :
    personCompare log2 tasks now "urgency" a b =
      ((getEarliestDueDate (personOpenTasks a tasks) : ℚ) -
        (getEarliestDueDate (personOpenTasks b tasks) : ℚ)) := rfl

theorem personCompare_priority (log2 : ℕ → ℚ) (tasks : List Task) (now : Time) (a b : Person) :
    personCompare log2 tasks now "priority" a b =
      (if getHighestPriority (personOpenTasks b tasks) ≠ getHighestPriority (personOpenTasks a tasks)
       then ((getHighestPriority (personOpenTasks b tasks) : ℚ) -
         (getHighestPriority (personOpenTasks a tasks) : ℚ))
       else ((getEarliestDueDate (personOpenTasks a tasks) : ℚ) -
         (getEarliestDueDate (personOpenTasks b tasks) : ℚ))) := rfl

theorem personCompare_name (log2 : ℕ → ℚ) (tasks : List Task) (now : Time) (a b : Person) :
    personCompare log2 tasks now "name" a b = compareStrings a.name b.name := rfl

theorem personCompare_role (log2 : ℕ → ℚ) (tasks : List Task) (now : Time) (a b : Person) :
    personCompare log2 tasks now "role" a b = compareStrings a.role b.role := rfl

theorem personCompare_default (log2 : ℕ → ℚ) (tasks : List Task) (now : Time)
    (sortBy : String) (a b : Person)
    (h1 : sortBy ≠ "smart") (h2 : sortBy ≠ "taskCount") (h3 : sortBy ≠ "urgency")
    (h4 : sortBy ≠ "priority") (h5 : sortBy ≠ "name") (h6 : sortBy ≠ "role") :
    personCompare log2 tasks now sortBy a b = 0 := by
  unfold personCompare
  split <;> simp_all

theorem compareStrings_nonpos (a b : String) : compareStrings a b ≤ 0 ↔ a ≤ b := by
  rw [compareStrings]
  rcases lt_trichotomy a b with h | h | h
  · rw [if_pos h]
    simp [le_of_lt h]
  · subst h
    rw [if_neg (lt_irrefl a), if_neg (lt_irrefl a)]
    simp
  · rw [if_neg (not_lt.mpr (le_of_lt h)), if_pos h]
    simp [not_le.mpr h]

theorem priorityCompare_nonpos (log2 : ℕ → ℚ) (tasks : List Task) (now : Time) (a b : Person) :
    personCompare log2 tasks now "priority" a b ≤ 0 ↔
      (getHighestPriority (personOpenTasks b tasks) < getHighestPriority (personOpenTasks a tasks) ∨
        (getHighestPriority (personOpenTasks b tasks) = getHighestPriority (personOpenTasks a tasks) ∧
          getEarliestDueDate (personOpenTasks a tasks) ≤ getEarliestDueDate (personOpenTasks b tasks))) := by
  rw [personCompare_priority]
  split_ifs with h
  · constructor
    · intro hle
      left
      have hq : ((getHighestPriority (personOpenTasks b tasks) : ℚ)) ≤
          ((getHighestPriority (personOpenTasks a tasks) : ℚ)) := by linarith
      have hz : getHighestPriority (personOpenTasks b tasks) ≤
          getHighestPriority (personOpenTasks a tasks) := by exact_mod_cast hq
      omega
    · rintro (hlt | ⟨heq, _⟩)
      · have hq : ((getHighestPriority (personOpenTasks b tasks) : ℚ)) ≤
            ((getHighestPriority (personOpenTasks a tasks) : ℚ)) := by
          exact_mod_cast le_of_lt hlt
        linarith
      · exact absurd heq h
  · rw [not_ne_iff] at h
    constructor
    · intro hle
      right
      refine ⟨h, ?_⟩
      have hq : ((getEarliestDueDate (personOpenTasks a tasks) : ℚ)) ≤
          ((getEarliestDueDate (personOpenTasks b tasks) : ℚ)) := by linarith
      exact_mod_cast hq
    · rintro (hlt | ⟨_, hle⟩)
      · omega
      · have hq : ((getEarliestDueDate (personOpenTasks a tasks) : ℚ)) ≤
            ((getEarliestDueDate (personOpenTasks b tasks) : ℚ)) := by exact_mod_cast hle
        linarith

theorem personLe_iff (log2 : ℕ → ℚ) (tasks : List Task) (now : Time) (sortBy : String)
    (a b : Person) :
    personLe log2 tasks now sortBy a b = true ↔
      personCompare log2 tasks now sortBy a b ≤ 0 := by
  rw [personLe, decide_eq_true_eq]

theorem personLe_total (log2 : ℕ → ℚ) (tasks : List Task) (now : Time) (sortBy : String)
    (a b : Person) :
    personLe log2 tasks now sortBy a b || personLe log2 tasks now sortBy b a := by
  rw [Bool.or_eq_true, personLe_iff, personLe_iff]
  by_cases h1 : sortBy = "smart"
  · subst h1
    rw [personCompare_smart, personCompare_smart]
    rcases le_total (calculatePersonScore log2 a tasks now) (calculatePersonScore log2 b tasks now)
      with h | h
    · right; linarith
    · left; linarith
  by_cases h2 : sortBy = "taskCount"
  · subst h2
    rw [personCompare_taskCount, personCompare_taskCount]
    rcases le_total ((personOpenTasks a tasks).length : ℚ) ((personOpenTasks b tasks).length : ℚ)
      with h | h
    · right; linarith
    · left; linarith
  by_cases h3 : sortBy = "urgency"
  · subst h3
    rw [personCompare_urgency, personCompare_urgency]
    rcases le_total ((getEarliestDueDate (personOpenTasks a tasks)) : ℚ)
      ((getEarliestDueDate (personOpenTasks b tasks)) : ℚ) with h | h
    · left; linarith
    · right; linarith
  by_cases h4 : sortBy = "priority"
  · subst h4
    rw [priorityCompare_nonpos, priorityCompare_nonpos]
    rcases lt_trichotomy (getHighestPriority (personOpenTasks a tasks))
      (getHighestPriority (personOpenTasks b tasks)) with h | h | h
    · right; left; exact h
    · rcases le_total (getEarliestDueDate (personOpenTasks a tasks))
        (getEarliestDueDate (personOpenTasks b tasks)) with hd | hd
      · left; right; exact ⟨h.symm, hd⟩
      · right; right; exact ⟨h, hd⟩
    · left; left; exact h
  by_cases h5 : sortBy = "name"
  · subst h5
    rw [personCompare_name, personCompare_name, compareStrings_nonpos, compareStrings_nonpos]
    exact le_total a.name b.name
  by_cases h6 : sortBy = "role"
  · subst h6
    rw [personCompare_role, personCompare_role, compareStrings_nonpos, compareStrings_nonpos]
    exact le_total a.role b.role
  · left
    rw [personCompare_default log2 tasks now sortBy a b h1 h2 h3 h4 h5 h6]

theorem personLe_trans (log2 : ℕ → ℚ) (tasks : List Task) (now : Time) (sortBy : String)
    (a b c : Person) (hab : personLe log2 tasks now sortBy a b)
    (hbc : personLe log2 tasks now sortBy b c) :
    personLe log2 tasks now sortBy a c := by
  rw [personLe_iff] at hab hbc ⊢
  by_cases h1 : sortBy = "smart"
  · subst h1
    rw [personCompare_smart] at hab hbc ⊢
    linarith
  by_cases h2 : sortBy = "taskCount"
  · subst h2
    rw [personCompare_taskCount] at hab hbc ⊢
    linarith
  by_cases h3 : sortBy = "urgency"
  · subst h3
    rw [personCompare_urgency] at hab hbc ⊢
    linarith
  by_cases h4 : sortBy = "priority"
  · subst h4
    rw [priorityCompare_nonpos] at hab hbc ⊢
    rcases hab with hab | ⟨hab1, hab2⟩ <;> rcases hbc with hbc | ⟨hbc1, hbc2⟩
    · left; omega
    · left; omega
    · left; omega
    · right; exact ⟨by omega, le_trans hab2 hbc2⟩
  by_cases h5 : sortBy = "name"
  · subst h5
    rw [personCompare_name, compareStrings_nonpos] at hab hbc ⊢
    exact le_trans hab hbc
  by_cases h6 : sortBy = "role"
  · subst h6
    rw [personCompare_role, compareStrings_nonpos] at hab hbc ⊢
    exact le_trans hab hbc
  · rw [personCompare_default log2 tasks now sortBy a c h1 h2 h3 h4 h5 h6]

/-! ### The ranking claims -/

/-- **C6.** For every strategy string and all inputs, `sortPersons` returns a
(new) sequence holding exactly the elements of the input `persons` list; the
input list itself, being a value, is unchanged by the call in this pure
embedding. -/
theorem sortPersons_perm (log2 : ℕ → ℚ) (persons : List Person) (tasks : List Task)
    (sortBy : String) (now : Time) :
    (sortPersons log2 persons tasks sortBy now).Perm persons := by
  rw [sortPersons]
  exact List.mergeSort_perm persons _

/-- **C8.** Stability for every strategy: if `a` precedes `b` in the input and
the comparator ties them (`personCompare = 0`), then `a` still precedes `b`
in the output. -/
theorem sortPersons_stable (log2 : ℕ → ℚ) (persons : List Person) (tasks : List Task)
    (now : Time) (sortBy : String) (a b : Person)
    (hcmp : personCompare log2 tasks now sortBy a b = 0)
    (hsub : [a, b].Sublist persons) :
    [a, b].Sublist (sortPersons log2 persons tasks sortBy now) := by
  rw [sortPersons]
  refine List.pair_sublist_mergeSort
    (fun x y z => personLe_trans log2 tasks now sortBy x y z)
    (personLe_total log2 tasks now sortBy) ?_ hsub
  rw [personLe_iff, hcmp]

/-- Witness for C8 at a concrete input: `personA` and `personC` share the
display name "Alice", so strategy `name` ties them, and the input order is
preserved. -/
theorem sortPersons_stable_witness :
    personCompare (fun _ => 1) demoTasks 0 "name" personA personC = 0 ∧
    [personA, personC].Sublist [personA, personC] ∧
    [personA, personC].Sublist (sortPersons (fun _ => 1) [personA, personC] demoTasks "name" 0) := by
  have hcmp : personCompare (fun _ : ℕ => (1 : ℚ)) demoTasks 0 "name" personA personC = 0 := by
    have hname : personA.name = personC.name := rfl
    rw [personCompare_name, hname, compareStrings]
    simp
  exact ⟨hcmp, List.Sublist.refl _,
    sortPersons_stable (fun _ => 1) [personA, personC] demoTasks 0 "name" personA personC
      hcmp (List.Sublist.refl _)⟩

theorem foldl_min_le_init (d : Time) : ∀ ds : List Time, ds.foldl min d ≤ d
  | [] => le_refl d
  | e :: ds => le_trans (foldl_min_le_init (min d e) ds) (min_le_left d e)

theorem getEarliestDueDate_lt_farFuture (ts : List Task) (hne : ts ≠ [])
    (hall : ∀ t ∈ ts, t.due_date < farFutureTime) :
    getEarliestDueDate ts < farFutureTime := by
  rcases ts with _ | ⟨t, rest⟩
  · exact absurd rfl hne
  · rw [getEarliestDueDate]
    simp only [List.map_cons]
    calc (rest.map (fun t => t.due_date)).foldl min t.due_date ≤ t.due_date :=
          foldl_min_le_init _ _
      _ < farFutureTime := hall t (List.mem_cons_self t rest)

/-- **C7.** Under strategy `urgency` the output is ordered ascending by the
earliest due date among each person's open tasks (the sentinel standing in
when there are none); provided every task's due date lies strictly before the
sentinel (dates before the year 9999), every person with no open tasks is
placed after every person having at least one. -/
theorem sortPersons_urgency_sorted (log2 : ℕ → ℚ) (persons : List Person)
    (tasks : List Task) (now : Time)
    (hdates : ∀ t ∈ tasks, t.due_date < farFutureTime) :
    (sortPersons log2 persons tasks "urgency" now).Pairwise
      (fun a b => getEarliestDueDate (personOpenTasks a tasks) ≤
        getEarliestDueDate (personOpenTasks b tasks)) ∧
    (sortPersons log2 persons tasks "urgency" now).Pairwise
      (fun a b => personOpenTasks b tasks ≠ [] → personOpenTasks a tasks ≠ []) := by
  have hsorted := List.sorted_mergeSort
    (fun x y z => personLe_trans log2 tasks now "urgency" x y z)
    (personLe_total log2 tasks now "urgency") persons
  have hkey : (sortPersons log2 persons tasks "urgency" now).Pairwise
      (fun a b => getEarliestDueDate (personOpenTasks a tasks) ≤
        getEarliestDueDate (personOpenTasks b tasks)) := by
    rw [sortPersons]
    refine hsorted.imp ?_
    intro a b hab
    rw [personLe_iff, personCompare_urgency] at hab
    have hq : ((getEarliestDueDate (personOpenTasks a tasks) : ℚ)) ≤
        ((getEarliestDueDate (personOpenTasks b tasks) : ℚ)) := by linarith
    exact_mod_cast hq
  refine ⟨hkey, hkey.imp ?_⟩
  intro a b hab hbne hanil
  have ha : getEarliestDueDate (personOpenTasks a tasks) = farFutureTime := by
    rw [hanil]
    rfl
  have hb : getEarliestDueDate (personOpenTasks b tasks) < farFutureTime := by
    apply getEarliestDueDate_lt_farFuture _ hbne
    intro t ht
    exact hdates t (List.mem_of_mem_filter ht)
  rw [ha] at hab
  exact absurd hab (not_le.mpr hb)

/-- Witness for C7 at a concrete input. -/
theorem sortPersons_urgency_sorted_witness :
    (∀ t ∈ demoTasks, t.due_date < farFutureTime) ∧
    ((sortPersons (fun _ => 1) [personA, personB] demoTasks "urgency" 0).Pairwise
      (fun a b => getEarliestDueDate (personOpenTasks a demoTasks) ≤
        getEarliestDueDate (personOpenTasks b demoTasks)) ∧
    (sortPersons (fun _ => 1) [personA, personB] demoTasks "urgency" 0).Pairwise
      (fun a b => personOpenTasks b demoTasks ≠ [] → personOpenTasks a demoTasks ≠ [])) :=
  ⟨by decide, sortPersons_urgency_sorted (fun _ => 1) [personA, personB] demoTasks 0 (by decide)⟩

theorem isOpenFor_congr (p : Person) (t1 t2 : Task) (h1 : t1.status = t2.status)
    (h2 : t1.assigned_person_ids = t2.assigned_person_ids) :
    isOpenFor p t1 = isOpenFor p t2 := by
  rw [isOpenFor, isOpenFor, h1, h2]

theorem openTasks_length_eq (p : Person) {ts1 ts2 : List Task}
    (h : List.Forall₂ (fun t1 t2 => t1.status = t2.status ∧
      t1.assigned_person_ids = t2.assigned_person_ids) ts1 ts2) :
    (personOpenTasks p ts1).length = (personOpenTasks p ts2).length := by
  induction h with
  | nil => rfl
  | cons hR hrest ih =>
    rename_i t1 t2 rest1 rest2
    simp only [personOpenTasks, List.filter_cons] at ih ⊢
    rw [isOpenFor_congr p t1 t2 hR.1 hR.2]
    cases hof : isOpenFor p t2
    · simpa using ih
    · simpa using ih

/-- **C9.** Under strategy `taskCount` the ranking depends only on each
person's count of open tasks: two task lists agreeing task-by-task on status
and assignees (but arbitrary in priority and due date) produce the same
output ordering. -/
theorem sortPersons_taskCount_count_invariant (log2 : ℕ → ℚ) (persons : List Person)
    (ts1 ts2 : List Task) (now : Time)
    (hagree : List.Forall₂ (fun t1 t2 => t1.status = t2.status ∧
      t1.assigned_person_ids = t2.assigned_person_ids) ts1 ts2) :
    sortPersons log2 persons ts1 "taskCount" now =
      sortPersons log2 persons ts2 "taskCount" now := by
  have hle : personLe log2 ts1 now "taskCount" = personLe log2 ts2 now "taskCount" := by
    funext a b
    rw [personLe, personLe, personCompare_taskCount, personCompare_taskCount,
      openTasks_length_eq a hagree, openTasks_length_eq b hagree]
  rw [sortPersons, sortPersons, hle]

/-- Witness for C9 at a concrete input: `demoTasks2` swaps both priorities
and moves both due dates, yet the `taskCount` ranking is unchanged. -/
theorem sortPersons_taskCount_count_invariant_witness :
    List.Forall₂ (fun t1 t2 => t1.status = t2.status ∧
      t1.assigned_person_ids = t2.assigned_person_ids) demoTasks demoTasks2 ∧
    sortPersons (fun _ => 1) [personA, personB] demoTasks "taskCount" 0 =
      sortPersons (fun _ => 1) [personA, personB] demoTasks2 "taskCount" 0 :=
  ⟨List.Forall₂.cons ⟨rfl, rfl⟩ (List.Forall₂.cons ⟨rfl, rfl⟩ List.Forall₂.nil),
    sortPersons_taskCount_count_invariant (fun _ => 1) [personA, personB]
      demoTasks demoTasks2 0
      (List.Forall₂.cons ⟨rfl, rfl⟩ (List.Forall₂.cons ⟨rfl, rfl⟩ List.Forall₂.nil))⟩

end PersonSort
